import Mathlib

/-!
# git-init-container: the secret fetcher `main.go`

A shallow embedding of `main` (src/main.go): the configuration loader
(lines 26-59), the vault client factory (lines 65-75), the fetch loop
(lines 77-92) and the result writer (lines 94-106), followed by the
properties of the specification that concern them.

Everything `main` obtains from outside its own code (the file system, the
process environment, the YAML and JSON decoders, the Azure SDK) is a field of
`World`; the general theorems hold for every world.
-/

namespace GitInitContainer

/-! ## Data model -/

/-- Go `map[string]string` as `main` reads it: `none` is the nil map, `some l`
a map whose entries are `l`, listed in the order a `range` statement visits
them (Go leaves that order unspecified; the keys of a map are distinct). -/
abbrev StringMap := Option (List (String × String))

/-- The entries a `range` over the map visits: none for the nil map. -/
def StringMap.range (m : StringMap) : List (String × String) :=
  m.getD []

/-- Go `map[string]string` as `main` writes it: an unordered finite map. -/
abbrev Bundle := Finmap (fun _ : String => String)

/-- The struct `Config` (main.go:15-18). -/
structure Config where
  KeyVaultURL : String
  SecretMap : StringMap
deriving DecidableEq, Repr

/-- The struct `Secret` (main.go:21-23). -/
structure Secret where
  Secrets : Bundle
deriving DecidableEq

/-- The part of `azsecrets.GetSecretResponse` that `main` reads: `Value` is a
`*string`, `none` the nil pointer. -/
structure GetSecretResponse where
  Value : Option String
deriving DecidableEq, Repr

/-- A value of `*azsecrets.Client`: its method `GetSecret(ctx, name, version, options)`,
as a function of the name and the version (the error is its text). -/
structure Client where
  GetSecret : String → String → Except String GetSecretResponse

/-- The credential returned by `azidentity.NewDefaultAzureCredential`. -/
structure Credential where
  id : String
deriving DecidableEq, Repr

/-- What `main` obtains from outside its own code. -/
structure World where
  /-- The error of `os.Stat(path)`: `none` is the nil error. -/
  Stat : String → Option String
  /-- The result of `os.ReadFile(path)`. -/
  ReadFile : String → Except String String
  /-- The process environment: `none` for an unset variable. -/
  environ : String → Option String
  /-- The library call `yaml.Unmarshal(data, &config)`: the decoded target. -/
  yamlUnmarshal : String → Config → Except String Config
  /-- The library call `json.Unmarshal(data, &config.SecretMap)`: the decoded target. -/
  jsonUnmarshal : String → StringMap → Except String StringMap
  /-- The call `azidentity.NewDefaultAzureCredential(nil)`. -/
  NewDefaultAzureCredential : Except String Credential
  /-- The call `azsecrets.NewClient(vaultURL, cred, nil)`. -/
  NewClient : String → Credential → Except String Client
  /-- The library call `yaml.Marshal(&secrets)`. -/
  yamlMarshal : Secret → Except String String
  /-- The error of `os.WriteFile(path, data, 0644)`: `none` is the nil error. -/
  WriteFile : String → String → Option String

/-- The call `os.Getenv(key)`: the empty string for an unset variable. -/
def World.Getenv (w : World) (key : String) : String :=
  (w.environ key).getD ""

/-- The effects of a run that leave the process, in program order. -/
inductive Event where
  | newCredential
  | newClient (vaultURL : String)
  | getSecret (name : String)
  | logPrintf (line : String)
  | writeFile (path data : String)
  | println (line : String)
  | logFatal (line : String)
  | nilDereference
deriving DecidableEq, Repr

/-- A finished run: its effects and the exit status of the process
(0 on return from `main`, 1 after `log.Fatal`, 2 after a runtime fault). -/
structure Run where
  events : List Event
  exit : Nat
deriving DecidableEq, Repr

/-! ## The program -/

/-- The constant `configFile` (main.go:27). -/
def configFile : String := "config.yml"

/-- Configuration loader (main.go:26-59): the configuration, or the line
handed to `log.Fatal`. -/
def loadConfig (w : World) : Except String Config :=
  let config : Config := ⟨"", none⟩
  match w.Stat configFile with
  | none =>
    match w.ReadFile configFile with
    | .error err => .error ("failed to read config file: " ++ err)
    | .ok configData =>
      match w.yamlUnmarshal configData config with
      | .error err => .error ("failed to unmarshal config: " ++ err)
      | .ok config => .ok config
  | some _ =>
    let keyVaultURL := w.Getenv "KEYVAULT_URL"
    if keyVaultURL = "" then
      .error "KEYVAULT_URL environment variable is not set"
    else
      let secretMapEnv := w.Getenv "SECRET_MAP"
      if secretMapEnv = "" then
        .error "SECRET_MAP environment variable is not set"
      else
        match w.jsonUnmarshal secretMapEnv config.SecretMap with
        | .error err =>
          .error ("failed to unmarshal SECRET_MAP environment variable: " ++ err)
        | .ok secretMap => .ok ⟨keyVaultURL, secretMap⟩

/-- The body of the fetch loop (main.go:83-92) over the entries still to
visit: the effects, and the bundle at the end of the loop, `none` when the
dereference `*secretResp.Value` faulted. -/
def fetchLoop (client : Client) :
    List (String × String) → Secret → List Event × Option Secret
  | [], secrets => ([], some secrets)
  | (secretName, yamlKey) :: rest, secrets =>
    match client.GetSecret secretName "" with
    | .error err =>
      let r := fetchLoop client rest secrets
      (.getSecret secretName
        :: .logPrintf ("failed to fetch secret " ++ secretName ++ ": " ++ err) :: r.1, r.2)
    | .ok secretResp =>
      match secretResp.Value with
      | none => ([.getSecret secretName, .nilDereference], none)
      | some value =>
        let r := fetchLoop client rest ⟨secrets.Secrets.insert yamlKey value⟩
        (.getSecret secretName :: r.1, r.2)

/-- Secret fetcher (main.go:77-92): the loop run from the empty bundle. -/
def fetchSecrets (client : Client) (secretMap : StringMap) : List Event × Option Secret :=
  fetchLoop client secretMap.range ⟨∅⟩

/-- Result writer (main.go:94-106). -/
def writeResult (w : World) (secrets : Secret) : Run :=
  match w.yamlMarshal secrets with
  | .error err => ⟨[.logFatal ("failed to marshal secrets to YAML: " ++ err)], 1⟩
  | .ok data =>
    match w.WriteFile "secrets.yaml" data with
    | some err =>
      ⟨[.writeFile "secrets.yaml" data, .logFatal ("failed to write YAML to file: " ++ err)], 1⟩
    | none =>
      ⟨[.writeFile "secrets.yaml" data,
        .println "Secrets have been written to secrets.yaml"], 0⟩

/-- The function `main` (main.go:25-107). -/
def main (w : World) : Run :=
  match loadConfig w with
  | .error line => ⟨[.logFatal line], 1⟩
  | .ok config =>
    let keyVaultURL := config.KeyVaultURL
    let secretMap := config.SecretMap
    match w.NewDefaultAzureCredential with
    | .error err => ⟨[.newCredential, .logFatal ("failed to get credential: " ++ err)], 1⟩
    | .ok cred =>
      match w.NewClient keyVaultURL cred with
      | .error err =>
        ⟨[.newCredential, .newClient keyVaultURL,
          .logFatal ("failed to create key vault client: " ++ err)], 1⟩
      | .ok client =>
        match fetchSecrets client secretMap with
        | (fetched, none) => ⟨.newCredential :: .newClient keyVaultURL :: fetched, 2⟩
        | (fetched, some secrets) =>
          let written := writeResult w secrets
          ⟨.newCredential :: .newClient keyVaultURL :: (fetched ++ written.events),
            written.exit⟩

/-! ## The vault of the specification -/

/-- A vault as the specification describes it (`fetchSecret(name) -> value or
error`): every remote name has a value or an error. -/
abbrev Vault := String → Except String String

/-- The client of a vault: a successful response carries the value (a non-nil
`Value`), whatever version is asked for. -/
def Vault.client (vault : Vault) : Client :=
  ⟨fun name _ =>
    match vault name with
    | .ok value => .ok ⟨some value⟩
    | .error err => .error err⟩

/-! ## Library behaviour used to build concrete worlds

`json.Unmarshal` into a `*map[string]string`, after the documentation of Go's
`encoding/json`: the input must be one JSON value; `null` sets the map to nil
and is no error; an object is stored into the map (allocated when nil, reused
otherwise), a member whose value is `null` leaving the zero value `""` under its
key, a later duplicate key overwriting an earlier one; any other value, and any
member value other than a string or `null`, is an error (a syntax error or an
`UnmarshalTypeError`). The text of the error is not modelled: one text stands for
all of them. -/

namespace EncodingJson

/-- JSON white space. -/
def isSpace (c : Char) : Bool :=
  c = ' ' || c = '\t' || c = '\n' || c = '\r'

/-- The input after its leading white space. -/
def skipSpace : List Char → List Char
  | [] => []
  | c :: cs => if isSpace c then skipSpace cs else c :: cs

/-- The value of a hexadecimal digit. -/
def hexDigit (c : Char) : Option Nat :=
  if '0' ≤ c ∧ c ≤ '9' then some (c.toNat - '0'.toNat)
  else if 'a' ≤ c ∧ c ≤ 'f' then some (c.toNat - 'a'.toNat + 10)
  else if 'A' ≤ c ∧ c ≤ 'F' then some (c.toNat - 'A'.toNat + 10)
  else none

/-- The four hexadecimal digits of a `\u` escape: the UTF-16 code unit. -/
def hex4 : List Char → Option (Nat × List Char)
  | a :: b :: c :: d :: rest =>
    match hexDigit a, hexDigit b, hexDigit c, hexDigit d with
    | some x, some y, some z, some t => some (((x * 16 + y) * 16 + z) * 16 + t, rest)
    | _, _, _, _ => none
  | _ => none

/-- The low half of a surrogate pair written right after a high half. -/
def lowSurrogate : List Char → Option (Nat × List Char)
  | '\\' :: 'u' :: rest =>
    match hex4 rest with
    | some (lo, rest) => if 0xDC00 ≤ lo ∧ lo < 0xE000 then some (lo, rest) else none
    | none => none
  | _ => none

/-- One escape sequence, after its backslash: the character it stands for. -/
def escape : List Char → Option (Char × List Char)
  | '"' :: rest => some ('"', rest)
  | '\\' :: rest => some ('\\', rest)
  | '/' :: rest => some ('/', rest)
  | 'b' :: rest => some (Char.ofNat 8, rest)
  | 'f' :: rest => some (Char.ofNat 12, rest)
  | 'n' :: rest => some ('\n', rest)
  | 'r' :: rest => some ('\r', rest)
  | 't' :: rest => some ('\t', rest)
  | 'u' :: rest =>
    match hex4 rest with
    | none => none
    | some (u, rest) =>
      if 0xD800 ≤ u ∧ u < 0xDC00 then
        match lowSurrogate rest with
        | some (lo, rest2) =>
          some (Char.ofNat (0x10000 + (u - 0xD800) * 0x400 + (lo - 0xDC00)), rest2)
        | none => some (Char.ofNat 0xFFFD, rest)
      else if 0xDC00 ≤ u ∧ u < 0xE000 then some (Char.ofNat 0xFFFD, rest)
      else some (Char.ofNat u, rest)
  | _ => none

/-- A string literal after its opening quote: the text (escapes replaced, in
reverse in `acc` while it is read) and the input after the closing quote. A
control character is an error. The fuel is the length of the input. -/
def stringBody : Nat → List Char → List Char → Option (String × List Char)
  | 0, _, _ => none
  | _ + 1, [], _ => none
  | fuel + 1, c :: cs, acc =>
    if c = '"' then some (String.mk acc.reverse, cs)
    else if c = '\\' then
      match escape cs with
      | some (e, rest) => stringBody fuel rest (e :: acc)
      | none => none
    else if c.toNat < 0x20 then none
    else stringBody fuel cs (c :: acc)

/-- A string literal: its text and the input after it. -/
def stringLit (cs : List Char) : Option (String × List Char) :=
  match cs with
  | '"' :: rest => stringBody rest.length rest []
  | _ => none

/-- A member value the target accepts: a string literal, or `null`. -/
def memberValue (cs : List Char) : Option (Option String × List Char) :=
  match cs with
  | 'n' :: 'u' :: 'l' :: 'l' :: rest => some (none, rest)
  | _ => (stringLit cs).map (fun r => (some r.1, r.2))

/-- The members of a non-empty object from the first key on, up to the closing
brace: `key : value` separated by commas. The fuel is the length of the input. -/
def members : Nat → List Char → List (String × Option String) →
    Option (List (String × Option String) × List Char)
  | 0, _, _ => none
  | fuel + 1, cs, acc =>
    match stringLit (skipSpace cs) with
    | none => none
    | some (key, rest) =>
      match skipSpace rest with
      | ':' :: rest =>
        match memberValue (skipSpace rest) with
        | none => none
        | some (value, rest) =>
          match skipSpace rest with
          | ',' :: rest => members fuel rest ((key, value) :: acc)
          | '}' :: rest => some (((key, value) :: acc).reverse, rest)
          | _ => none
      | _ => none

/-- The inputs `json.Unmarshal` stores into a `map[string]string` without an
error: `null`, or an object whose member values are strings or `null` (`none`). -/
inductive Document where
  | null
  | object (members : List (String × Option String))
deriving DecidableEq, Repr

/-- The input read as one JSON value between optional white space: `none` when
it is not one of the two accepted shapes. -/
def document (data : String) : Option Document :=
  match skipSpace data.data with
  | 'n' :: 'u' :: 'l' :: 'l' :: rest =>
    if skipSpace rest = [] then some .null else none
  | '{' :: rest =>
    match skipSpace rest with
    | '}' :: rest => if skipSpace rest = [] then some (.object []) else none
    | rest =>
      match members rest.length rest [] with
      | some (ms, rest) => if skipSpace rest = [] then some (.object ms) else none
      | none => none
  | _ => none

/-- The assignment `m[key] = value` on the entries of a map: an existing key
keeps its place, a new one is listed last. -/
def assign (m : List (String × String)) (key value : String) : List (String × String) :=
  if m.any (fun e => e.1 = key) then m.map (fun e => if e.1 = key then (key, value) else e)
  else m ++ [(key, value)]

/-- The call `json.Unmarshal(data, &v)` for `v` of type `map[string]string`. -/
def unmarshal (data : String) (v : StringMap) : Except String StringMap :=
  match document data with
  | none => .error "json: cannot unmarshal the input into a Go value of type map[string]string"
  | some .null => .ok none
  | some (.object ms) =>
    .ok (some (ms.foldl (fun m e => assign m e.1 (e.2.getD "")) (v.getD [])))

/-- The input is a well-formed JSON object all of whose member values are
strings. -/
def isObjectOfStrings (data : String) : Bool :=
  match document data with
  | some (.object ms) => ms.all (fun e => e.2.isSome)
  | _ => false

end EncodingJson

/-! ## Concrete worlds -/

/-- The text `yaml.Marshal(&secrets)` gives for a bundle whose keys and values
are plain scalars: `secrets: {}` for the empty map, else one indented
`key: value` line for each key, the keys sorted. (The library quotes other
strings; it returns no error for this type.) -/
def yamlMarshalPlain (secrets : Secret) : Except String String :=
  if secrets.Secrets.keys = ∅ then .ok "secrets: \x7b\x7d\n"
  else
    .ok ((secrets.Secrets.keys.sort (fun a b => a ≤ b)).foldl
      (fun text key =>
        text ++ "  " ++ key ++ ": " ++ (secrets.Secrets.lookup key).getD "" ++ "\n")
      "secrets:\n")

/-- What `yaml.Unmarshal(data, &out)` makes of the two documents the concrete
worlds use: an empty input holds no document, so the target is left as it is
and no error is returned; the second document sets both fields. Any other
input is outside this table. -/
def yamlUnmarshalTable (data : String) (out : Config) : Except String Config :=
  if data = "" then .ok out
  else if data = "keyVaultURL: https://file.vault\nsecretMap:\n  a: keyA\n" then
    .ok ⟨"https://file.vault", some (EncodingJson.assign out.SecretMap.range "a" "keyA")⟩
  else .error "yaml: document outside the table"

/-- A process environment holding the listed variables. -/
def environOf (vars : List (String × String)) : String → Option String :=
  fun key => vars.lookup key

/-- A world without `config.yml`, with the given environment and vault, in
which the credential, the client and the write succeed. -/
def envWorld (environ : String → Option String) (vault : Vault) : World where
  Stat := fun _ => some "stat config.yml: no such file or directory"
  ReadFile := fun _ => .error "open config.yml: no such file or directory"
  environ := environ
  yamlUnmarshal := yamlUnmarshalTable
  jsonUnmarshal := EncodingJson.unmarshal
  NewDefaultAzureCredential := .ok ⟨"default"⟩
  NewClient := fun _ _ => .ok vault.client
  yamlMarshal := yamlMarshalPlain
  WriteFile := fun _ _ => none

/-- A world whose `config.yml` has the given content, otherwise as `envWorld`. -/
def fileWorld (content : String) (environ : String → Option String) (vault : Vault) :
    World where
  Stat := fun _ => none
  ReadFile := fun _ => .ok content
  environ := environ
  yamlUnmarshal := yamlUnmarshalTable
  jsonUnmarshal := EncodingJson.unmarshal
  NewDefaultAzureCredential := .ok ⟨"default"⟩
  NewClient := fun _ _ => .ok vault.client
  yamlMarshal := yamlMarshalPlain
  WriteFile := fun _ _ => none

/-- A vault holding the listed secrets; any other name is not found. -/
def vaultOf (held : List (String × String)) : Vault :=
  fun name =>
    match held.lookup name with
    | some value => .ok value
    | none => .error "SecretNotFound"

/-- A world as `envWorld` whose disk is nearly full: `os.WriteFile` fails for
data of more than 12 bytes and succeeds otherwise. -/
def smallDiskWorld (environ : String → Option String) (vault : Vault) : World where
  Stat := fun _ => some "stat config.yml: no such file or directory"
  ReadFile := fun _ => .error "open config.yml: no such file or directory"
  environ := environ
  yamlUnmarshal := yamlUnmarshalTable
  jsonUnmarshal := EncodingJson.unmarshal
  NewDefaultAzureCredential := .ok ⟨"default"⟩
  NewClient := fun _ _ => .ok vault.client
  yamlMarshal := yamlMarshalPlain
  WriteFile := fun _ data =>
    if data.utf8ByteSize > 12 then some "write secrets.yaml: no space left on device"
    else none

/-- The world `w` with a client construction that succeeds with the client of
the given vault. -/
def World.withVault (w : World) (vault : Vault) : World :=
  { w with NewClient := fun _ _ => .ok vault.client }

/-! ## Lemmas on the JSON decoder -/

/-- The empty input is no JSON value: decoding it is an error. -/
theorem EncodingJson.unmarshal_empty (v : StringMap) :
    ∃ e, EncodingJson.unmarshal "" v = .error e :=
  ⟨_, rfl⟩

/-- A well-formed object of strings is decoded without an error, into a map
that is not nil. -/
theorem EncodingJson.unmarshal_of_isObjectOfStrings (data : String) (v : StringMap)
    (h : EncodingJson.isObjectOfStrings data = true) :
    ∃ m, EncodingJson.unmarshal data v = .ok (some m) := by
  unfold EncodingJson.isObjectOfStrings at h
  unfold EncodingJson.unmarshal
  cases hd : EncodingJson.document data with
  | none => simp [hd] at h
  | some d =>
    cases d with
    | null => simp [hd] at h
    | object ms => exact ⟨_, rfl⟩

/-- An input that is decoded without an error and is no well-formed object of
strings is `null` or an object with a `null` member. -/
theorem EncodingJson.unmarshal_ok_cases (data : String) (v m : StringMap)
    (h : EncodingJson.unmarshal data v = .ok m)
    (hobj : EncodingJson.isObjectOfStrings data = false) :
    EncodingJson.document data = some .null ∨
      ∃ ms, EncodingJson.document data = some (.object ms) ∧ ∃ e ∈ ms, e.2 = none := by
  unfold EncodingJson.isObjectOfStrings at hobj
  unfold EncodingJson.unmarshal at h
  cases hd : EncodingJson.document data with
  | none => simp [hd] at h
  | some d =>
    cases d with
    | null => exact Or.inl rfl
    | object ms =>
      right
      simp only [hd, List.all_eq_false] at hobj
      obtain ⟨e, he, hnone⟩ := hobj
      refine ⟨ms, rfl, e, he, ?_⟩
      cases h2 : e.2 with
      | none => rfl
      | some x => simp [h2] at hnone

/-! ## Lemmas on the fetch loop -/

theorem fetchLoop_cons_ok (vault : Vault) (r k v : String) (rest : List (String × String))
    (s : Secret) (h : vault r = .ok v) :
    fetchLoop vault.client ((r, k) :: rest) s =
      (.getSecret r :: (fetchLoop vault.client rest ⟨s.Secrets.insert k v⟩).1,
        (fetchLoop vault.client rest ⟨s.Secrets.insert k v⟩).2) := by
  simp [fetchLoop, Vault.client, h]

theorem fetchLoop_cons_error (vault : Vault) (r k e : String) (rest : List (String × String))
    (s : Secret) (h : vault r = .error e) :
    fetchLoop vault.client ((r, k) :: rest) s =
      (.getSecret r :: .logPrintf ("failed to fetch secret " ++ r ++ ": " ++ e)
          :: (fetchLoop vault.client rest s).1,
        (fetchLoop vault.client rest s).2) := by
  simp [fetchLoop, Vault.client, h]

/-- The loop over a vault never faults; every entry of its bundle was in the
starting bundle or was fetched, starting keys stay, and every fetched pair
leaves its output key in the bundle. -/
theorem fetchLoop_vault (vault : Vault) (pairs : List (String × String)) :
    ∀ s : Secret, ∃ b : Secret, (fetchLoop vault.client pairs s).2 = some b ∧
      (∀ k v, b.Secrets.lookup k = some v →
        s.Secrets.lookup k = some v ∨ ∃ r, (r, k) ∈ pairs ∧ vault r = .ok v) ∧
      (∀ k, k ∈ s.Secrets → k ∈ b.Secrets) ∧
      (∀ r k v, (r, k) ∈ pairs → vault r = .ok v → k ∈ b.Secrets) := by
  induction pairs with
  | nil =>
    intro s
    exact ⟨s, rfl, fun k v h => Or.inl h, fun k h => h, by simp⟩
  | cons p rest ih =>
    intro s
    obtain ⟨r, k⟩ := p
    cases hv : vault r with
    | error e =>
      obtain ⟨b, hb, h1, h2, h3⟩ := ih s
      refine ⟨b, by rw [fetchLoop_cons_error vault r k e rest s hv]; exact hb, ?_, h2, ?_⟩
      · intro k' v' hl
        rcases h1 k' v' hl with h | ⟨r', hm, hr⟩
        · exact Or.inl h
        · exact Or.inr ⟨r', List.mem_cons_of_mem _ hm, hr⟩
      · intro r' k' v' hm hr
        rcases List.mem_cons.mp hm with heq | hm
        · have : r' = r := (Prod.mk.inj heq).1
          rw [this, hv] at hr
          cases hr
        · exact h3 r' k' v' hm hr
    | ok v =>
      obtain ⟨b, hb, h1, h2, h3⟩ := ih ⟨s.Secrets.insert k v⟩
      refine ⟨b, by rw [fetchLoop_cons_ok vault r k v rest s hv]; exact hb, ?_, ?_, ?_⟩
      · intro k' v' hl
        rcases h1 k' v' hl with h | ⟨r', hm, hr⟩
        · by_cases hk : k' = k
          · subst hk
            rw [Finmap.lookup_insert] at h
            cases h
            exact Or.inr ⟨r, List.mem_cons_self _ _, hv⟩
          · rw [Finmap.lookup_insert_of_ne _ hk] at h
            exact Or.inl h
        · exact Or.inr ⟨r', List.mem_cons_of_mem _ hm, hr⟩
      · intro k' hk'
        exact h2 k' (Finmap.mem_insert.mpr (Or.inr hk'))
      · intro r' k' v' hm hr
        rcases List.mem_cons.mp hm with heq | hm
        · have hk : k' = k := (Prod.mk.inj heq).2
          exact h2 k' (Finmap.mem_insert.mpr (Or.inl hk))
        · exact h3 r' k' v' hm hr

/-- The state the loop reaches after a prefix is the state from which it runs
the rest. -/
theorem fetchLoop_append (client : Client) (l₁ l₂ : List (String × String)) :
    ∀ s s' : Secret, (fetchLoop client l₁ s).2 = some s' →
      (fetchLoop client (l₁ ++ l₂) s).2 = (fetchLoop client l₂ s').2 := by
  induction l₁ with
  | nil =>
    intro s s' h
    simp [fetchLoop] at h
    simp [h]
  | cons p rest ih =>
    intro s s' h
    obtain ⟨r, k⟩ := p
    simp only [List.cons_append, fetchLoop] at h ⊢
    cases hg : client.GetSecret r "" with
    | error e =>
      simp only [hg] at h ⊢
      exact ih s s' h
    | ok resp =>
      simp only [hg] at h ⊢
      cases hval : resp.Value with
      | none => simp [hval] at h
      | some value =>
        simp only [hval] at h ⊢
        exact ih _ s' h

/-- When the successful fetches of one output key agree on the value, the
bundle of the loop holds exactly the fetched entries. -/
theorem fetchSecrets_lookup_iff (vault : Vault) (pairs : List (String × String))
    (hcons : ∀ r r' k v v', (r, k) ∈ pairs → (r', k) ∈ pairs →
      vault r = .ok v → vault r' = .ok v' → v = v') :
    ∃ b : Secret, (fetchSecrets vault.client (some pairs)).2 = some b ∧
      ∀ k v, b.Secrets.lookup k = some v ↔ ∃ r, (r, k) ∈ pairs ∧ vault r = .ok v := by
  obtain ⟨b, hb, h1, _, h3⟩ := fetchLoop_vault vault pairs ⟨∅⟩
  refine ⟨b, hb, fun k v => ⟨fun h => ?_, fun h => ?_⟩⟩
  · rcases h1 k v h with h0 | h0
    · simp at h0
    · exact h0
  · obtain ⟨r, hm, hr⟩ := h
    obtain ⟨v', hv'⟩ := Finmap.mem_iff.mp (h3 r k v hm hr)
    rcases h1 k v' hv' with h0 | ⟨r', hm', hr'⟩
    · simp at h0
    · rw [hv', hcons r r' k v v' hm hm' hr hr']

/-- The loop faults exactly when an entry's fetch succeeds without a value,
and then its effects end with that fetch and the fault. -/
theorem fetchLoop_fault (client : Client) (pairs : List (String × String)) :
    ∀ s : Secret,
      ((fetchLoop client pairs s).2 = none ↔
        ∃ p ∈ pairs, ∃ resp, client.GetSecret p.1 "" = .ok resp ∧ resp.Value = none) ∧
      ((fetchLoop client pairs s).2 = none ↔
        Event.nilDereference ∈ (fetchLoop client pairs s).1) ∧
      ((fetchLoop client pairs s).2 = none →
        ∃ before p, p ∈ pairs ∧
          (∃ resp, client.GetSecret p.1 "" = .ok resp ∧ resp.Value = none) ∧
          (fetchLoop client pairs s).1 = before ++ [.getSecret p.1, .nilDereference]) := by
  induction pairs with
  | nil => intro s; simp [fetchLoop]
  | cons p rest ih =>
    intro s
    obtain ⟨r, k⟩ := p
    cases hg : client.GetSecret r "" with
    | error e =>
      obtain ⟨h1, h2, h3⟩ := ih s
      simp only [fetchLoop, hg]
      refine ⟨?_, ?_, ?_⟩
      · rw [h1]
        simp [hg]
      · rw [h2]
        simp
      · intro hf
        obtain ⟨before, p, hp, hresp, hev⟩ := h3 hf
        exact ⟨.getSecret r :: .logPrintf ("failed to fetch secret " ++ r ++ ": " ++ e) :: before,
          p, List.mem_cons_of_mem _ hp, hresp, by simp [hev]⟩
    | ok resp =>
      cases hval : resp.Value with
      | none =>
        simp only [fetchLoop, hg, hval]
        refine ⟨?_, ?_, ?_⟩
        · simp only [true_iff]
          exact ⟨(r, k), List.mem_cons_self _ _, resp, hg, hval⟩
        · simp
        · intro _
          exact ⟨[], (r, k), List.mem_cons_self _ _, ⟨resp, hg, hval⟩, rfl⟩
      | some value =>
        obtain ⟨h1, h2, h3⟩ := ih ⟨s.Secrets.insert k value⟩
        simp only [fetchLoop, hg, hval]
        refine ⟨?_, ?_, ?_⟩
        · rw [h1]
          simp [hg, hval]
        · rw [h2]
          simp
        · intro hf
          obtain ⟨before, p, hp, hresp, hev⟩ := h3 hf
          exact ⟨.getSecret r :: before, p, List.mem_cons_of_mem _ hp, hresp, by simp [hev]⟩

/-! ## Lemmas on the concrete worlds -/

/-- The text written for the bundle `keyA -> v1`. -/
theorem yamlMarshalPlain_keyA :
    yamlMarshalPlain ⟨Finmap.singleton "keyA" "v1"⟩ = .ok "secrets:\n  keyA: v1\n" := by
  simp [yamlMarshalPlain, Finmap.keys_singleton, Finset.sort_singleton,
    Finmap.lookup_singleton_eq]

/-- The run of the specification's environment test, in full. -/
theorem main_env_keyA :
    main
        (envWorld
          (environOf [("KEYVAULT_URL", "https://x.vault"),
            ("SECRET_MAP", "\x7b\"a\":\"keyA\"\x7d")])
          (vaultOf [("a", "v1")])) =
      ⟨[.newCredential, .newClient "https://x.vault", .getSecret "a",
        .writeFile "secrets.yaml" "secrets:\n  keyA: v1\n",
        .println "Secrets have been written to secrets.yaml"], 0⟩ := by
  have h : ∃ data,
      main
          (envWorld
            (environOf [("KEYVAULT_URL", "https://x.vault"),
              ("SECRET_MAP", "\x7b\"a\":\"keyA\"\x7d")])
            (vaultOf [("a", "v1")])) =
        ⟨[.newCredential, .newClient "https://x.vault", .getSecret "a",
          .writeFile "secrets.yaml" data,
          .println "Secrets have been written to secrets.yaml"], 0⟩ ∧
      yamlMarshalPlain ⟨Finmap.singleton "keyA" "v1"⟩ = .ok data := ⟨_, rfl, rfl⟩
  obtain ⟨data, hrun, hdata⟩ := h
  rw [yamlMarshalPlain_keyA] at hdata
  cases hdata
  exact hrun

/-! ## Secret fetcher -/

/-- C1. Secret Fetcher, exact result: when the output keys of the name mapping
are pairwise distinct, the fetch loop ends without a fault and its bundle holds
the entry `outputKey -> value` exactly for the pairs `(remoteName, outputKey)`
of the mapping whose fetch succeeded with `value`; when every fetch succeeds,
the keys of the bundle are the configured output keys and there are as many
entries as pairs. -/
theorem fetch_exact (vault : Vault) (secretMap : List (String × String))
    (hkeys : (secretMap.map Prod.snd).Nodup) :
    ∃ secrets : Secret, (fetchSecrets vault.client (some secretMap)).2 = some secrets ∧
      (∀ k v, secrets.Secrets.lookup k = some v ↔
        ∃ r, (r, k) ∈ secretMap ∧ vault r = .ok v) ∧
      ((∀ p ∈ secretMap, ∃ v, vault p.1 = .ok v) →
        secrets.Secrets.keys = (secretMap.map Prod.snd).toFinset ∧
        secrets.Secrets.keys.card = secretMap.length) := by
  have hinj : ∀ r r' k, (r, k) ∈ secretMap → (r', k) ∈ secretMap → r = r' := by
    intro r r' k hm hm'
    have := List.inj_on_of_nodup_map hkeys hm hm' rfl
    exact (Prod.mk.inj this).1
  obtain ⟨b, hb, hiff⟩ := fetchSecrets_lookup_iff vault secretMap (by
    intro r r' k v v' hm hm' hr hr'
    rw [hinj r r' k hm hm', hr'] at hr
    cases hr
    rfl)
  refine ⟨b, hb, hiff, fun hall => ?_⟩
  have hk : b.Secrets.keys = (secretMap.map Prod.snd).toFinset := by
    ext k
    rw [Finmap.mem_keys, Finmap.mem_iff, List.mem_toFinset, List.mem_map]
    constructor
    · rintro ⟨v, hv⟩
      obtain ⟨r, hm, _⟩ := (hiff k v).mp hv
      exact ⟨(r, k), hm, rfl⟩
    · rintro ⟨⟨r, k'⟩, hm, rfl⟩
      obtain ⟨v, hv⟩ := hall (r, k') hm
      exact ⟨v, (hiff k' v).mpr ⟨r, hm, hv⟩⟩
  refine ⟨hk, ?_⟩
  rw [hk, List.toFinset_card_of_nodup hkeys, List.length_map]

/-- C1, at the three-entry mapping of the specification's test: the vault
holds `a` and `b` and fails for `c`, and the bundle has the two entries
`keyA -> v1` and `keyB -> v2`. -/
theorem fetch_exact_witness :
    (([("a", "keyA"), ("b", "keyB"), ("c", "keyC")] : List (String × String)).map
        Prod.snd).Nodup ∧
      (∃ secrets : Secret,
        (fetchSecrets (vaultOf [("a", "v1"), ("b", "v2")]).client
          (some [("a", "keyA"), ("b", "keyB"), ("c", "keyC")])).2 = some secrets ∧
        (∀ k v, secrets.Secrets.lookup k = some v ↔
          ∃ r, (r, k) ∈ [("a", "keyA"), ("b", "keyB"), ("c", "keyC")] ∧
            vaultOf [("a", "v1"), ("b", "v2")] r = .ok v) ∧
        ((∀ p ∈ [("a", "keyA"), ("b", "keyB"), ("c", "keyC")],
            ∃ v, vaultOf [("a", "v1"), ("b", "v2")] p.1 = .ok v) →
          secrets.Secrets.keys =
            (([("a", "keyA"), ("b", "keyB"), ("c", "keyC")] : List (String × String)).map
              Prod.snd).toFinset ∧
          secrets.Secrets.keys.card =
            ([("a", "keyA"), ("b", "keyB"), ("c", "keyC")] : List (String × String)).length)) ∧
      (fetchSecrets (vaultOf [("a", "v1"), ("b", "v2")]).client
          (some [("a", "keyA"), ("b", "keyB"), ("c", "keyC")])).2 =
        some ⟨Finmap.insert "keyB" "v2" (Finmap.singleton "keyA" "v1")⟩ ∧
      (Finmap.insert "keyB" "v2" (Finmap.singleton "keyA" "v1") : Bundle).keys.card = 2 :=
  ⟨by decide, fetch_exact _ _ (by decide), by decide, by decide⟩

/-- C6. Bundle provenance invariant: for every name mapping (duplicate output
keys allowed), every vault and every number `n` of completed iterations, the
loop has reached a bundle without a fault, the run continues from it over the
remaining pairs, and every entry `k -> v` of it comes from a pair
`(remoteName, k)` of the mapping whose fetch succeeded with `v`; at
`n = length` this is the bundle at the end of the loop. -/
theorem bundle_provenance (vault : Vault) (secretMap : List (String × String)) (n : Nat) :
    ∃ secrets : Secret,
      (fetchLoop vault.client (secretMap.take n) ⟨∅⟩).2 = some secrets ∧
      (fetchSecrets vault.client (some secretMap)).2 =
        (fetchLoop vault.client (secretMap.drop n) secrets).2 ∧
      (∀ k v, secrets.Secrets.lookup k = some v →
        ∃ r, (r, k) ∈ secretMap ∧ vault r = .ok v) ∧
      (∀ k, k ∈ secrets.Secrets → k ∈ secretMap.map Prod.snd) := by
  obtain ⟨b, hb, h1, _, _⟩ := fetchLoop_vault vault (secretMap.take n) ⟨∅⟩
  have hprov : ∀ k v, b.Secrets.lookup k = some v →
      ∃ r, (r, k) ∈ secretMap ∧ vault r = .ok v := by
    intro k v h
    rcases h1 k v h with h0 | ⟨r, hm, hr⟩
    · simp at h0
    · exact ⟨r, List.mem_of_mem_take hm, hr⟩
  refine ⟨b, hb, ?_, hprov, ?_⟩
  · have := fetchLoop_append vault.client (secretMap.take n) (secretMap.drop n) ⟨∅⟩ b hb
    rw [List.take_append_drop] at this
    exact this
  · intro k hk
    obtain ⟨v, hv⟩ := Finmap.mem_iff.mp hk
    obtain ⟨r, hm, _⟩ := hprov k v hv
    exact List.mem_map.mpr ⟨(r, k), hm, rfl⟩

/-- C7, as stated, fails: the mapping assigns the output key `k` to `a` and to
`b`, the fetch of `a` fails and that of `b` succeeds, and `k` is a key of the
bundle. -/
theorem failed_key_present :
    ("a", "k") ∈ ([("a", "k"), ("b", "k")] : List (String × String)) ∧
      vaultOf [("b", "v")] "a" = .error "SecretNotFound" ∧
      (fetchSecrets (vaultOf [("b", "v")]).client (some [("a", "k"), ("b", "k")])).2 =
        some ⟨Finmap.singleton "k" "v"⟩ ∧
      "k" ∈ (Finmap.singleton "k" "v" : Bundle) :=
  ⟨by decide, rfl, by decide, by decide⟩

/-- C7, amended. Failed keys are absent: if the fetch of `remoteName` fails,
and so does the fetch of every other remote name to which the mapping assigns
the same output key, then that output key is not a key of the bundle. -/
theorem failed_key_absent (vault : Vault) (secretMap : List (String × String))
    (remoteName outputKey e : String) (_hmem : (remoteName, outputKey) ∈ secretMap)
    (hfail : vault remoteName = .error e)
    (hothers : ∀ r, r ≠ remoteName → (r, outputKey) ∈ secretMap → ∃ e', vault r = .error e') :
    ∃ secrets : Secret, (fetchSecrets vault.client (some secretMap)).2 = some secrets ∧
      outputKey ∉ secrets.Secrets ∧ secrets.Secrets.lookup outputKey = none := by
  obtain ⟨b, hb, h1, _, _⟩ := fetchLoop_vault vault secretMap ⟨∅⟩
  have habs : outputKey ∉ b.Secrets := by
    intro hk
    obtain ⟨v, hv⟩ := Finmap.mem_iff.mp hk
    rcases h1 outputKey v hv with h0 | ⟨r, hm, hr⟩
    · simp at h0
    · by_cases hrr : r = remoteName
      · rw [hrr, hfail] at hr
        cases hr
      · obtain ⟨e', he'⟩ := hothers r hrr hm
        rw [he'] at hr
        cases hr
  exact ⟨b, hb, habs, Finmap.lookup_eq_none.mpr habs⟩

/-- C7 amended, at a mapping with distinct output keys whose second fetch
fails. -/
theorem failed_key_absent_witness :
    ("b", "keyB") ∈ ([("a", "keyA"), ("b", "keyB")] : List (String × String)) ∧
    vaultOf [("a", "v1")] "b" = .error "SecretNotFound" ∧
    ∃ secrets : Secret,
      (fetchSecrets (vaultOf [("a", "v1")]).client
        (some [("a", "keyA"), ("b", "keyB")])).2 = some secrets ∧
      "keyB" ∉ secrets.Secrets ∧ secrets.Secrets.lookup "keyB" = none :=
  ⟨by decide, rfl,
    failed_key_absent (vaultOf [("a", "v1")]) [("a", "keyA"), ("b", "keyB")] "b" "keyB"
      "SecretNotFound" (by decide) rfl (by
        intro r hr hm
        simp at hm
        exact absurd hm hr)⟩

/-- C9, as stated, fails: the mapping assigns the output key `k` to `a` and to
`b`, both fetches succeed, and the two orders of the pairs end with different
bundles (the value fetched last stays). -/
theorem fetch_order_matters :
    ([("a", "k"), ("b", "k")] : List (String × String)).Perm [("b", "k"), ("a", "k")] ∧
      (fetchSecrets (vaultOf [("a", "1"), ("b", "2")]).client
        (some [("a", "k"), ("b", "k")])).2 = some ⟨Finmap.singleton "k" "2"⟩ ∧
      (fetchSecrets (vaultOf [("a", "1"), ("b", "2")]).client
        (some [("b", "k"), ("a", "k")])).2 = some ⟨Finmap.singleton "k" "1"⟩ ∧
      (fetchSecrets (vaultOf [("a", "1"), ("b", "2")]).client
        (some [("a", "k"), ("b", "k")])).2 ≠
      (fetchSecrets (vaultOf [("a", "1"), ("b", "2")]).client
        (some [("b", "k"), ("a", "k")])).2 :=
  ⟨by decide, by decide, by decide, by decide⟩

/-- C9, amended. Iteration order is irrelevant when no two pairs of the
mapping that share an output key are fetched with different values (so
whenever the output keys are pairwise distinct): the bundle of the fetch loop
is the same for any two orders in which the pairs are visited. -/
theorem fetch_order_irrelevant (vault : Vault) (l₁ l₂ : List (String × String))
    (hperm : l₁.Perm l₂)
    (hcons : ∀ r r' k v v', (r, k) ∈ l₁ → (r', k) ∈ l₁ →
      vault r = .ok v → vault r' = .ok v' → v = v') :
    (fetchSecrets vault.client (some l₁)).2 = (fetchSecrets vault.client (some l₂)).2 ∧
      ∃ secrets : Secret, (fetchSecrets vault.client (some l₁)).2 = some secrets := by
  obtain ⟨b₁, hb₁, h₁⟩ := fetchSecrets_lookup_iff vault l₁ hcons
  obtain ⟨b₂, hb₂, h₂⟩ := fetchSecrets_lookup_iff vault l₂ (by
    intro r r' k v v' hm hm' hr hr'
    exact hcons r r' k v v' (hperm.mem_iff.mpr hm) (hperm.mem_iff.mpr hm') hr hr')
  refine ⟨?_, b₁, hb₁⟩
  rw [hb₁, hb₂]
  have hmaps : b₁.Secrets = b₂.Secrets := by
    apply Finmap.ext_lookup
    intro k
    apply Option.ext
    intro v
    rw [Option.mem_def, Option.mem_def, h₁ k v, h₂ k v]
    constructor
    · rintro ⟨r, hm, hr⟩
      exact ⟨r, hperm.mem_iff.mp hm, hr⟩
    · rintro ⟨r, hm, hr⟩
      exact ⟨r, hperm.mem_iff.mpr hm, hr⟩
  cases b₁
  cases b₂
  simp only at hmaps
  rw [hmaps]

/-- C9 amended, at two orders of a mapping with distinct output keys. -/
theorem fetch_order_irrelevant_witness :
    ([("a", "keyA"), ("b", "keyB")] : List (String × String)).Perm
        [("b", "keyB"), ("a", "keyA")] ∧
      ((fetchSecrets (vaultOf [("a", "1"), ("b", "2")]).client
          (some [("a", "keyA"), ("b", "keyB")])).2 =
        (fetchSecrets (vaultOf [("a", "1"), ("b", "2")]).client
          (some [("b", "keyB"), ("a", "keyA")])).2 ∧
        ∃ secrets : Secret,
          (fetchSecrets (vaultOf [("a", "1"), ("b", "2")]).client
            (some [("a", "keyA"), ("b", "keyB")])).2 = some secrets) :=
  ⟨by decide,
    fetch_order_irrelevant (vaultOf [("a", "1"), ("b", "2")])
      [("a", "keyA"), ("b", "keyB")] [("b", "keyB"), ("a", "keyA")] (by decide) (by
        intro r r' k v v' hm hm' hr hr'
        simp only [List.mem_cons, Prod.mk.injEq, List.mem_singleton, List.not_mem_nil,
          or_false] at hm hm'
        rcases hm with ⟨rfl, rfl⟩ | ⟨rfl, rfl⟩ <;> rcases hm' with ⟨rfl, h⟩ | ⟨rfl, h⟩ <;>
          first
          | (rw [hr] at hr'; cases hr'; rfl)
          | exact absurd h (by decide))⟩

/-- C10. Fetch loop safety: for every client and every name mapping, the nil
and the empty mapping included, the loop faults exactly when the fetch of some
entry succeeds with a missing value (so it completes when every successful
response carries one); a fault is the nil dereference, recorded right after the
fetch of such an entry, and nothing else ends the loop early. -/
theorem fetch_loop_safety (client : Client) (secretMap : StringMap) :
    ((fetchSecrets client secretMap).2 = none ↔
      ∃ p ∈ secretMap.range, ∃ resp,
        client.GetSecret p.1 "" = .ok resp ∧ resp.Value = none) ∧
    ((fetchSecrets client secretMap).2 = none ↔
      Event.nilDereference ∈ (fetchSecrets client secretMap).1) ∧
    ((fetchSecrets client secretMap).2 = none →
      ∃ before p, p ∈ secretMap.range ∧
        (∃ resp, client.GetSecret p.1 "" = .ok resp ∧ resp.Value = none) ∧
        (fetchSecrets client secretMap).1 = before ++ [.getSecret p.1, .nilDereference]) ∧
    fetchSecrets client none = ([], some ⟨∅⟩) ∧
    fetchSecrets client (some []) = ([], some ⟨∅⟩) := by
  obtain ⟨h1, h2, h3⟩ := fetchLoop_fault client secretMap.range ⟨∅⟩
  exact ⟨h1, h2, h3, rfl, rfl⟩

/-! ## Configuration loader -/

/-- C2. File precedence: when `config.yml` is present (`os.Stat` succeeds), the
result of the loader, a configuration or a fatal failure, is the same for every
setting of the environment. -/
theorem file_precedence (w : World) (environ' : String → Option String)
    (hfile : w.Stat configFile = none) :
    loadConfig { w with environ := environ' } = loadConfig w := by
  simp [loadConfig, hfile]

/-- C2, at a present `config.yml` and an environment in which both variables
are set and valid: the loader returns the configuration of the file, as it does
with an empty environment. -/
theorem file_precedence_witness :
    (fileWorld "keyVaultURL: https://file.vault\nsecretMap:\n  a: keyA\n" (environOf [])
        (vaultOf [])).Stat configFile = none ∧
      loadConfig
        { fileWorld "keyVaultURL: https://file.vault\nsecretMap:\n  a: keyA\n" (environOf [])
            (vaultOf []) with
          environ :=
            environOf [("KEYVAULT_URL", "https://x.vault"),
              ("SECRET_MAP", "\x7b\"b\":\"keyB\"\x7d")] } =
        loadConfig
          (fileWorld "keyVaultURL: https://file.vault\nsecretMap:\n  a: keyA\n" (environOf [])
            (vaultOf [])) ∧
      loadConfig
          (fileWorld "keyVaultURL: https://file.vault\nsecretMap:\n  a: keyA\n" (environOf [])
            (vaultOf [])) =
        .ok ⟨"https://file.vault", some [("a", "keyA")]⟩ :=
  ⟨rfl, file_precedence _ _ rfl, rfl⟩

/-- C3, as stated, fails: without `config.yml`, with `KEYVAULT_URL` set and
`SECRET_MAP=null`, which is no JSON object, `json.Unmarshal` returns no error
and leaves the map nil; the loader returns a configuration and the run builds
the client and ends with exit status 0. -/
theorem null_secret_map_accepted :
    EncodingJson.isObjectOfStrings "null" = false ∧
      (envWorld (environOf [("KEYVAULT_URL", "https://x.vault"), ("SECRET_MAP", "null")])
        (vaultOf [])).Stat configFile ≠ none ∧
      loadConfig
          (envWorld (environOf [("KEYVAULT_URL", "https://x.vault"), ("SECRET_MAP", "null")])
            (vaultOf [])) = .ok ⟨"https://x.vault", none⟩ ∧
      main
          (envWorld (environOf [("KEYVAULT_URL", "https://x.vault"), ("SECRET_MAP", "null")])
            (vaultOf [])) =
        ⟨[.newCredential, .newClient "https://x.vault",
          .writeFile "secrets.yaml" "secrets: \x7b\x7d\n",
          .println "Secrets have been written to secrets.yaml"], 0⟩ :=
  ⟨by decide, by decide, rfl, by decide⟩

/-- C3, amended. Environment fallback rejection: when `config.yml` is not
present, the run is a single fatal log line with exit status 1, with no
credential or client built and no secret fetched, whenever `KEYVAULT_URL` is
unset or empty, or `SECRET_MAP` is unset or empty, or `json.Unmarshal` returns
an error for `SECRET_MAP`. -/
theorem env_fallback_rejection (w : World) (hnofile : w.Stat configFile ≠ none)
    (hbad : (w.environ "KEYVAULT_URL" = none ∨ w.environ "KEYVAULT_URL" = some "") ∨
      (w.environ "SECRET_MAP" = none ∨ w.environ "SECRET_MAP" = some "") ∨
      ∃ e, w.jsonUnmarshal (w.Getenv "SECRET_MAP") none = .error e) :
    ∃ line, loadConfig w = .error line ∧ main w = ⟨[.logFatal line], 1⟩ ∧
      Event.newCredential ∉ (main w).events ∧
      (∀ url, Event.newClient url ∉ (main w).events) ∧
      (∀ name, Event.getSecret name ∉ (main w).events) := by
  have hload : ∃ line, loadConfig w = .error line := by
    cases hstat : w.Stat configFile with
    | none => exact absurd hstat hnofile
    | some err =>
      simp only [loadConfig, hstat]
      by_cases hu : w.Getenv "KEYVAULT_URL" = ""
      · simp [hu]
      · by_cases hs : w.Getenv "SECRET_MAP" = ""
        · simp [hu, hs]
        · rcases hbad with h | h | ⟨e, he⟩
          · exact absurd (by rcases h with h | h <;> simp [World.Getenv, h]) hu
          · exact absurd (by rcases h with h | h <;> simp [World.Getenv, h]) hs
          · simp [hu, hs, he]
  obtain ⟨line, hline⟩ := hload
  have hmain : main w = ⟨[.logFatal line], 1⟩ := by simp [main, hline]
  refine ⟨line, hline, hmain, ?_, ?_, ?_⟩ <;> simp [hmain]

/-- C3 amended, at the specification's test: no `config.yml` and `KEYVAULT_URL`
missing. -/
theorem env_fallback_rejection_witness :
    (envWorld (environOf [("SECRET_MAP", "\x7b\"a\":\"keyA\"\x7d")])
        (vaultOf [("a", "v1")])).Stat configFile ≠ none ∧
      ∃ line,
        loadConfig (envWorld (environOf [("SECRET_MAP", "\x7b\"a\":\"keyA\"\x7d")])
          (vaultOf [("a", "v1")])) = .error line ∧
        main (envWorld (environOf [("SECRET_MAP", "\x7b\"a\":\"keyA\"\x7d")])
          (vaultOf [("a", "v1")])) = ⟨[.logFatal line], 1⟩ ∧
        Event.newCredential ∉
          (main (envWorld (environOf [("SECRET_MAP", "\x7b\"a\":\"keyA\"\x7d")])
            (vaultOf [("a", "v1")]))).events ∧
        (∀ url, Event.newClient url ∉
          (main (envWorld (environOf [("SECRET_MAP", "\x7b\"a\":\"keyA\"\x7d")])
            (vaultOf [("a", "v1")]))).events) ∧
        (∀ name, Event.getSecret name ∉
          (main (envWorld (environOf [("SECRET_MAP", "\x7b\"a\":\"keyA\"\x7d")])
            (vaultOf [("a", "v1")]))).events) :=
  ⟨by decide, env_fallback_rejection _ (by decide) (Or.inl (Or.inl rfl))⟩

/-- C4. Environment fallback success: when `config.yml` is not present,
`KEYVAULT_URL` is a non-empty string `u` and `SECRET_MAP` is a (non-empty)
string that `json.Unmarshal` decodes as the object `m`, the loader returns
exactly the configuration with vault location `u` and name mapping `m`. -/
theorem env_fallback_success (w : World) (u s : String) (m : List (String × String))
    (hnofile : w.Stat configFile ≠ none)
    (hurl : w.environ "KEYVAULT_URL" = some u) (hu : u ≠ "")
    (hmap : w.environ "SECRET_MAP" = some s) (hs : s ≠ "")
    (hdec : w.jsonUnmarshal s none = .ok (some m)) :
    loadConfig w = .ok ⟨u, some m⟩ := by
  cases hstat : w.Stat configFile with
  | none => exact absurd hstat hnofile
  | some err => simp [loadConfig, hstat, World.Getenv, hurl, hu, hmap, hs, hdec]

/-- C4, at the specification's test: `KEYVAULT_URL=https://x.vault`,
`SECRET_MAP` the object with the one member `a: keyA`, and a vault returning
`v1` for `a`; the bundle is `keyA -> v1`, and the run writes it and ends with
exit status 0. -/
theorem env_fallback_success_witness :
    loadConfig
        (envWorld
          (environOf [("KEYVAULT_URL", "https://x.vault"),
            ("SECRET_MAP", "\x7b\"a\":\"keyA\"\x7d")])
          (vaultOf [("a", "v1")])) = .ok ⟨"https://x.vault", some [("a", "keyA")]⟩ ∧
      fetchSecrets (vaultOf [("a", "v1")]).client (some [("a", "keyA")]) =
        ([.getSecret "a"], some ⟨Finmap.singleton "keyA" "v1"⟩) ∧
      main
          (envWorld
            (environOf [("KEYVAULT_URL", "https://x.vault"),
              ("SECRET_MAP", "\x7b\"a\":\"keyA\"\x7d")])
            (vaultOf [("a", "v1")])) =
        ⟨[.newCredential, .newClient "https://x.vault", .getSecret "a",
          .writeFile "secrets.yaml" "secrets:\n  keyA: v1\n",
          .println "Secrets have been written to secrets.yaml"], 0⟩ :=
  ⟨env_fallback_success _ "https://x.vault" "\x7b\"a\":\"keyA\"\x7d" [("a", "keyA")]
      (by decide) rfl (by decide) rfl (by decide) rfl,
    by decide, main_env_keyA⟩

/-- C8, as stated, fails in its last clause: on a disk that takes no more than
12 bytes, with the same configuration, credential and mapping `a -> keyA`, the
run whose fetch fails writes the 12 bytes of the empty bundle and ends with
exit status 0, and the run whose fetch succeeds cannot write its 20 bytes and
ends with exit status 1. -/
theorem fetch_failure_changes_exit :
    main
        ((smallDiskWorld
          (environOf [("KEYVAULT_URL", "https://x.vault"),
            ("SECRET_MAP", "\x7b\"a\":\"keyA\"\x7d")])
          (vaultOf [])).withVault (vaultOf [])) =
      ⟨[.newCredential, .newClient "https://x.vault", .getSecret "a",
        .logPrintf "failed to fetch secret a: SecretNotFound",
        .writeFile "secrets.yaml" "secrets: \x7b\x7d\n",
        .println "Secrets have been written to secrets.yaml"], 0⟩ ∧
    main
        ((smallDiskWorld
          (environOf [("KEYVAULT_URL", "https://x.vault"),
            ("SECRET_MAP", "\x7b\"a\":\"keyA\"\x7d")])
          (vaultOf [])).withVault (vaultOf [("a", "v1")])) =
      ⟨[.newCredential, .newClient "https://x.vault", .getSecret "a",
        .writeFile "secrets.yaml" "secrets:\n  keyA: v1\n",
        .logFatal "failed to write YAML to file: write secrets.yaml: no space left on device"],
        1⟩ := by
  refine ⟨by decide, ?_⟩
  have hrun :
      main
          ((smallDiskWorld
            (environOf [("KEYVAULT_URL", "https://x.vault"),
              ("SECRET_MAP", "\x7b\"a\":\"keyA\"\x7d")])
            (vaultOf [])).withVault (vaultOf [("a", "v1")])) =
        ⟨.newCredential :: .newClient "https://x.vault" ::
            ([.getSecret "a"] ++
              (writeResult
                (smallDiskWorld
                  (environOf [("KEYVAULT_URL", "https://x.vault"),
                    ("SECRET_MAP", "\x7b\"a\":\"keyA\"\x7d")])
                  (vaultOf []))
                ⟨Finmap.singleton "keyA" "v1"⟩).events),
          (writeResult
            (smallDiskWorld
              (environOf [("KEYVAULT_URL", "https://x.vault"),
                ("SECRET_MAP", "\x7b\"a\":\"keyA\"\x7d")])
              (vaultOf []))
            ⟨Finmap.singleton "keyA" "v1"⟩).exit⟩ := rfl
  have hwrite :
      writeResult
          (smallDiskWorld
            (environOf [("KEYVAULT_URL", "https://x.vault"),
              ("SECRET_MAP", "\x7b\"a\":\"keyA\"\x7d")])
            (vaultOf []))
          ⟨Finmap.singleton "keyA" "v1"⟩ =
        ⟨[.writeFile "secrets.yaml" "secrets:\n  keyA: v1\n",
          .logFatal
            "failed to write YAML to file: write secrets.yaml: no space left on device"],
          1⟩ := by
    have hm :
        (smallDiskWorld
            (environOf [("KEYVAULT_URL", "https://x.vault"),
              ("SECRET_MAP", "\x7b\"a\":\"keyA\"\x7d")])
            (vaultOf [])).yamlMarshal ⟨Finmap.singleton "keyA" "v1"⟩ =
          .ok "secrets:\n  keyA: v1\n" := yamlMarshalPlain_keyA
    have hw :
        (smallDiskWorld
            (environOf [("KEYVAULT_URL", "https://x.vault"),
              ("SECRET_MAP", "\x7b\"a\":\"keyA\"\x7d")])
            (vaultOf [])).WriteFile "secrets.yaml" "secrets:\n  keyA: v1\n" =
          some "write secrets.yaml: no space left on device" := by decide
    simp only [writeResult, hm, hw]
    decide
  rw [hrun, hwrite]
  rfl

/-- C8, amended. Per-secret failures never become fatal: once the
configuration is loaded and the credential obtained, for every vault whose
client the construction returns (every pattern of fetch errors, all failing
included) the loop ends with a bundle, the run goes on with the result writer
on that bundle and its exit status is the writer's: 0 when serialization and
the write succeed, 1 otherwise; two runs that differ only in which fetches
fail end with the same exit status provided serialization and the write
succeed in both or fail in both. -/
theorem fetch_failures_not_fatal (w : World) (config : Config) (cred : Credential)
    (hload : loadConfig w = .ok config) (hcred : w.NewDefaultAzureCredential = .ok cred) :
    (∀ vault : Vault, ∃ fetched secrets,
      fetchSecrets vault.client config.SecretMap = (fetched, some secrets) ∧
      main (w.withVault vault) =
        ⟨.newCredential :: .newClient config.KeyVaultURL ::
            (fetched ++ (writeResult w secrets).events),
          (writeResult w secrets).exit⟩ ∧
      ((main (w.withVault vault)).exit = 0 ↔
        ∃ data, w.yamlMarshal secrets = .ok data ∧ w.WriteFile "secrets.yaml" data = none) ∧
      ((main (w.withVault vault)).exit ≠ 0 → (main (w.withVault vault)).exit = 1)) ∧
    (∀ vault₁ vault₂ : Vault, ∀ secrets₁ secrets₂ : Secret,
      (fetchSecrets vault₁.client config.SecretMap).2 = some secrets₁ →
      (fetchSecrets vault₂.client config.SecretMap).2 = some secrets₂ →
      ((∃ data, w.yamlMarshal secrets₁ = .ok data ∧ w.WriteFile "secrets.yaml" data = none) ↔
        ∃ data, w.yamlMarshal secrets₂ = .ok data ∧ w.WriteFile "secrets.yaml" data = none) →
      (main (w.withVault vault₁)).exit = (main (w.withVault vault₂)).exit) := by
  have hrun : ∀ vault : Vault, ∀ fetched secrets,
      fetchSecrets vault.client config.SecretMap = (fetched, some secrets) →
      main (w.withVault vault) =
        ⟨.newCredential :: .newClient config.KeyVaultURL ::
            (fetched ++ (writeResult w secrets).events),
          (writeResult w secrets).exit⟩ := by
    intro vault fetched secrets hf
    have hl : loadConfig (w.withVault vault) = .ok config := by
      rw [← hload]
      rfl
    have hc : (w.withVault vault).NewDefaultAzureCredential = .ok cred := hcred
    have hn : (w.withVault vault).NewClient config.KeyVaultURL cred = .ok vault.client := rfl
    have hw : writeResult (w.withVault vault) secrets = writeResult w secrets := rfl
    simp only [main, hl, hc, hn, hf, hw]
  have hfetch : ∀ vault : Vault, ∃ fetched secrets,
      fetchSecrets vault.client config.SecretMap = (fetched, some secrets) := by
    intro vault
    obtain ⟨b, hb, _⟩ := fetchLoop_vault vault config.SecretMap.range ⟨∅⟩
    exact ⟨(fetchSecrets vault.client config.SecretMap).1, b, Prod.ext rfl hb⟩
  have hone : ∀ vault : Vault, ∃ fetched secrets,
      fetchSecrets vault.client config.SecretMap = (fetched, some secrets) ∧
      main (w.withVault vault) =
        ⟨.newCredential :: .newClient config.KeyVaultURL ::
            (fetched ++ (writeResult w secrets).events),
          (writeResult w secrets).exit⟩ ∧
      ((main (w.withVault vault)).exit = 0 ↔
        ∃ data, w.yamlMarshal secrets = .ok data ∧ w.WriteFile "secrets.yaml" data = none) ∧
      ((main (w.withVault vault)).exit ≠ 0 → (main (w.withVault vault)).exit = 1) := by
    intro vault
    obtain ⟨fetched, secrets, hf⟩ := hfetch vault
    refine ⟨fetched, secrets, hf, hrun vault fetched secrets hf, ?_, ?_⟩
    · rw [hrun vault fetched secrets hf]
      simp only [writeResult]
      cases hm : w.yamlMarshal secrets with
      | error e => simp
      | ok data =>
        cases hwr : w.WriteFile "secrets.yaml" data with
        | none => simp [hwr]
        | some e => simp [hwr]
    · rw [hrun vault fetched secrets hf]
      simp only [writeResult]
      cases hm : w.yamlMarshal secrets with
      | error e => simp
      | ok data =>
        cases hwr : w.WriteFile "secrets.yaml" data with
        | none => simp [hwr]
        | some e => simp [hwr]
  refine ⟨hone, ?_⟩
  intro vault₁ vault₂ secrets₁ secrets₂ h₁ h₂ hsame
  obtain ⟨f₁, s₁, hf₁, _, hz₁, hn₁⟩ := hone vault₁
  obtain ⟨f₂, s₂, hf₂, _, hz₂, hn₂⟩ := hone vault₂
  rw [hf₁] at h₁
  rw [hf₂] at h₂
  simp only [Option.some.injEq] at h₁ h₂
  subst h₁
  subst h₂
  by_cases hok : (main (w.withVault vault₁)).exit = 0
  · rw [hok, hz₂.mpr (hsame.mp (hz₁.mp hok))]
  · have hok₂ : (main (w.withVault vault₂)).exit ≠ 0 := fun h =>
      hok (hz₁.mpr (hsame.mpr (hz₂.mp h)))
    rw [hn₁ hok, hn₂ hok₂]

/-- C8 amended, at a world without `config.yml` whose mapping has one pair and
whose write always succeeds: the run in which the fetch fails and the run in
which it succeeds both end with exit status 0. -/
theorem fetch_failures_not_fatal_witness :
    loadConfig
        (envWorld
          (environOf [("KEYVAULT_URL", "https://x.vault"),
            ("SECRET_MAP", "\x7b\"a\":\"keyA\"\x7d")])
          (vaultOf [])) = .ok ⟨"https://x.vault", some [("a", "keyA")]⟩ ∧
      (envWorld
          (environOf [("KEYVAULT_URL", "https://x.vault"),
            ("SECRET_MAP", "\x7b\"a\":\"keyA\"\x7d")])
          (vaultOf [])).NewDefaultAzureCredential = .ok ⟨"default"⟩ ∧
      (main
        ((envWorld
          (environOf [("KEYVAULT_URL", "https://x.vault"),
            ("SECRET_MAP", "\x7b\"a\":\"keyA\"\x7d")])
          (vaultOf [])).withVault (vaultOf []))).exit =
      (main
        ((envWorld
          (environOf [("KEYVAULT_URL", "https://x.vault"),
            ("SECRET_MAP", "\x7b\"a\":\"keyA\"\x7d")])
          (vaultOf [])).withVault (vaultOf [("a", "v1")]))).exit ∧
      (main
        ((envWorld
          (environOf [("KEYVAULT_URL", "https://x.vault"),
            ("SECRET_MAP", "\x7b\"a\":\"keyA\"\x7d")])
          (vaultOf [])).withVault (vaultOf []))).exit = 0 :=
  ⟨rfl, rfl,
    (fetch_failures_not_fatal
      (envWorld
        (environOf [("KEYVAULT_URL", "https://x.vault"),
          ("SECRET_MAP", "\x7b\"a\":\"keyA\"\x7d")])
        (vaultOf []))
      ⟨"https://x.vault", some [("a", "keyA")]⟩ ⟨"default"⟩ rfl rfl).2
      (vaultOf []) (vaultOf [("a", "v1")]) ⟨∅⟩ ⟨Finmap.singleton "keyA" "v1"⟩
      (by decide) (by decide) ⟨fun _ => ⟨_, rfl, rfl⟩, fun _ => ⟨_, rfl, rfl⟩⟩,
    by decide⟩

end GitInitContainer
